import Mathlib

/-!
Shallow embedding of the `csvdata` Go package (file `csvdata.go`).

The package binds rows of a CSV-like source to the fields of a user struct:
`NewReadIter` reads the header row and builds, per declared struct field, a
column index (`tags`), a decode kind (`kinds`) and a write handle (`fields`);
`Get` reads one data row and writes each bound column's text into the struct.

Modelling choices, all taken from the source:
* Go's `reflect`-level view of the target struct is a list of `FieldDecl`
  (declared name, `field` tag — `""` when absent, as `Tag.Get` returns — and a
  `GoType` carrying the `reflect.Kind` category, whether the pointer /
  non-pointer forms implement the `Value` interface, and the behaviour of the
  custom `Set` method as an accept-predicate on strings).
* The row source (`Reader.Read`) is a list of `ReadResult`; an exhausted list
  behaves like `csv.Reader` at end of data, returning `io.EOF` forever.
* `strconv.ParseInt/ParseUint` are modelled for base 10, `bitSize 0` = 64-bit
  `int`, exactly as called: syntax errors yield value 0, range errors clamp to
  the extreme value.  `strconv.ParseFloat` is modelled on its decimal forms
  (sign, digits, optional fraction and exponent) with exact `Rat` values;
  `Inf`/`NaN` spellings, hexadecimal floats and digit underscores are not
  modelled — no claim touches them, only success/failure on plain text.
* `strings.EqualFold` is modelled as ASCII case folding; `strings.Replace`
  with a single-character pattern is a character map.
* A Go panic (slice index out of range) is `none`: `Get` returns
  `Option (Bool × ReadIter)`, `none` meaning the call does not return.
-/

set_option maxRecDepth 4096

namespace Csvdata

/-- Result of one `Reader.Read` call: a row of text fields, or an error. -/
inductive NumErr
  | badSyn
  | outOfRange
deriving DecidableEq, Repr

/-- Go `error` values that arise in this package: `io.EOF`, the two
`strconv.NumError` causes, the two `errors.New` messages of the source, and
arbitrary reader faults. -/
inductive GoError
  | eofErr
  | numErr (k : NumErr)
  | cannotConvert
  | notAValue
  | readFault (msg : String)
deriving DecidableEq, Repr

/-- One answer of the row source's `Read`. -/
inductive ReadResult
  | row (r : List String)
  | fault (e : GoError)
deriving DecidableEq, Repr

/-- The `const` block of the source: decode kinds. -/
inductive Kind
  | none_k
  | string_k
  | int_k
  | float_k
  | uint_k
  | value_k
deriving DecidableEq, Repr

/-- The `reflect.Kind` categories the classifier's `switch` distinguishes. -/
inductive GoKind
  | kInt
  | kUint
  | kFloat
  | kString
  | kOther
deriving DecidableEq, Repr

/-- The reflect-level type of one struct field: its kind category, whether
`*T` implements `Value`, whether `T` itself implements `Value` (in Go the
former follows from the latter; the model keeps the two flags independent),
and the accept-predicate of the custom `Set(string) bool` method. -/
structure GoType where
  kind : GoKind
  ptrImplsValue : Bool
  valImplsValue : Bool
  setOk : String → Bool

/-- One declared field of the target struct: name, `field` tag (`""` when the
annotation is absent, which is what `reflect.StructTag.Get` returns), type. -/
structure FieldDecl where
  name : String
  tag : String
  typ : GoType

/-- Runtime value of one struct field.  A custom `Value` field's state is the
last text successfully passed to `Set`. -/
inductive FieldVal
  | vstr (s : String)
  | vint (i : Int)
  | vuint (u : Nat)
  | vfloat (q : Rat)
  | vcustom (s : String)
deriving DecidableEq, Repr

/- ---------------- strconv models ---------------- -/

def maxInt64 : Int := 9223372036854775807
def minInt64 : Int := -9223372036854775808
def maxUint64 : Nat := 18446744073709551615

def digitVal (c : Char) : Nat := c.toNat - 48

/-- Accumulate base-10 digits; `none` at the first non-digit character. -/
def parseDecAux : List Char → Nat → Option Nat
  | [], acc => some acc
  | c :: cs, acc => if c.isDigit then parseDecAux cs (10 * acc + digitVal c) else none

/-- Strip one optional leading sign; `true` means negative. -/
def splitSign : List Char → Bool × List Char
  | '+' :: r => (false, r)
  | '-' :: r => (true, r)
  | r => (false, r)

/-- `strconv.ParseInt(s, 10, 0)` on a 64-bit platform: value and error.
Syntax errors return 0, range errors return the clamped extreme. -/
def goParseInt (s : String) : Int × Option GoError :=
  let p := splitSign s.data
  match p.2 with
  | [] => (0, some (GoError.numErr NumErr.badSyn))
  | ds =>
    match parseDecAux ds 0 with
    | none => (0, some (GoError.numErr NumErr.badSyn))
    | some n =>
      let v : Int := if p.1 then -(n : Int) else (n : Int)
      if v > maxInt64 then (maxInt64, some (GoError.numErr NumErr.outOfRange))
      else if v < minInt64 then (minInt64, some (GoError.numErr NumErr.outOfRange))
      else (v, none)

/-- `strconv.ParseUint(s, 10, 0)`: no sign is accepted at all. -/
def goParseUint (s : String) : Nat × Option GoError :=
  match s.data with
  | [] => (0, some (GoError.numErr NumErr.badSyn))
  | ds =>
    match parseDecAux ds 0 with
    | none => (0, some (GoError.numErr NumErr.badSyn))
    | some n =>
      if n > maxUint64 then (maxUint64, some (GoError.numErr NumErr.outOfRange))
      else (n, none)

/-- Longest prefix of decimal digits and the rest. -/
def takeDigits : List Char → List Char × List Char
  | [] => ([], [])
  | c :: cs =>
    if c.isDigit then
      let p := takeDigits cs
      (c :: p.1, p.2)
    else ([], c :: cs)

def digitsToNat (ds : List Char) : Nat := ds.foldl (fun a c => 10 * a + digitVal c) 0

/-- `strconv.ParseFloat(s, 0)` on its decimal forms, with exact rational
value: `[sign] digits [. digits] [(e|E) [sign] digits]`, at least one mantissa
digit required.  Syntax errors return 0. -/
def goParseFloat (s : String) : Rat × Option GoError :=
  let p := splitSign s.data
  let ipq := takeDigits p.2
  let fpq : List Char × List Char :=
    match ipq.2 with
    | '.' :: r => takeDigits r
    | _ => ([], ipq.2)
  if ipq.1.isEmpty && fpq.1.isEmpty then (0, some (GoError.numErr NumErr.badSyn))
  else
    let mant : Rat := (digitsToNat ipq.1 : Rat) + (digitsToNat fpq.1 : Rat) / ((10 : Rat) ^ fpq.1.length)
    match fpq.2 with
    | [] => (if p.1 then -mant else mant, none)
    | e :: r3 =>
      if e = 'e' ∨ e = 'E' then
        let ep := splitSign r3
        match ep.2 with
        | [] => (0, some (GoError.numErr NumErr.badSyn))
        | es =>
          match parseDecAux es 0 with
          | none => (0, some (GoError.numErr NumErr.badSyn))
          | some ex =>
            let v := mant * (if ep.1 then 1 / ((10 : Rat) ^ ex) else (10 : Rat) ^ ex)
            (if p.1 then -v else v, none)
      else (0, some (GoError.numErr NumErr.badSyn))

/-- The exported `StrToInt64`: `strconv.ParseInt(s, 10, 0)` with the error
silently dropped. -/
def StrToInt64 (s : String) : Int := (goParseInt s).1

/- ---------------- strings models ---------------- -/

/-- ASCII case folding, modelling `strings.EqualFold` on the ASCII subset. -/
def asciiLowerChar (c : Char) : Char :=
  if 'A' ≤ c ∧ c ≤ 'Z' then Char.ofNat (c.toNat + 32) else c

def eqFold (a b : String) : Bool :=
  a.data.map asciiLowerChar == b.data.map asciiLowerChar

/-- `strings.Replace(s, "_", " ", -1)`: single-character pattern, so a map. -/
def underscoreToSpace (s : String) : String :=
  String.mk (s.data.map (fun c => if c = '_' then ' ' else c))

def containsUnderscore (s : String) : Bool := s.data.contains '_'

/-- Lines 100–106 of the source: the lookup key for one field — the `field`
tag verbatim when non-empty, otherwise the declared name with underscores
replaced by spaces (the source guards the replacement with a `Contains`). -/
def fieldKey (f : FieldDecl) : String :=
  if f.tag = "" then
    if containsUnderscore f.name then underscoreToSpace f.name else f.name
  else f.tag

/-- Lines 107–113 of the source: first header index matching case-insensitively. -/
def lookupHeader : List String → String → Option Nat
  | [], _ => none
  | h :: hs, key =>
    if eqFold h key then some 0 else (lookupHeader hs key).map Nat.succ

/- ---------------- the binding plan ---------------- -/

/-- One slot of the parallel arrays `kinds`/`tags`/`fields` of `ReadIter`:
decode kind, column index, whether the stored `reflect.Value` handle
implements `Value`, and its `Set` accept-predicate. -/
structure PlanEntry where
  kind : Kind
  tag : Nat
  impls : Bool
  setOk : String → Bool

/-- The slot an unmatched field keeps: the arrays are allocated with `make`,
so kind `none_k` (0), column 0, zero `reflect.Value` handle. -/
def defaultEntry : PlanEntry := ⟨Kind.none_k, 0, false, fun _ => false⟩

/-- Lines 124–152 of the source: classify one matched field.  The `Value`
check on the addressable form comes first; otherwise the `reflect.Kind`
switch; in the `default` branch a field whose non-addressable form implements
`Value` is accepted, anything else is the fatal "cannot convert this type". -/
def classifyField (t : GoType) (itag : Nat) : Except GoError PlanEntry :=
  if t.ptrImplsValue then Except.ok ⟨Kind.value_k, itag, true, t.setOk⟩
  else
    match t.kind with
    | GoKind.kInt => Except.ok ⟨Kind.int_k, itag, t.valImplsValue, t.setOk⟩
    | GoKind.kUint => Except.ok ⟨Kind.uint_k, itag, t.valImplsValue, t.setOk⟩
    | GoKind.kFloat => Except.ok ⟨Kind.float_k, itag, t.valImplsValue, t.setOk⟩
    | GoKind.kString => Except.ok ⟨Kind.string_k, itag, t.valImplsValue, t.setOk⟩
    | GoKind.kOther =>
      if t.valImplsValue then Except.ok ⟨Kind.value_k, itag, true, t.setOk⟩
      else Except.error GoError.cannotConvert

/-- Lines 95–156 of the source: the per-field loop of `NewReadIter`.  An
unmatched field `continue`s, leaving its `make`-zero slot; a matched field is
classified, and a classification error aborts the whole construction. -/
def buildPlan (headers : List String) : List FieldDecl → Except GoError (List PlanEntry)
  | [] => Except.ok []
  | f :: fs =>
    match lookupHeader headers (fieldKey f) with
    | none =>
      match buildPlan headers fs with
      | Except.error er => Except.error er
      | Except.ok rest => Except.ok (defaultEntry :: rest)
    | some itag =>
      match classifyField f.typ itag with
      | Except.error er => Except.error er
      | Except.ok e =>
        match buildPlan headers fs with
        | Except.error er => Except.error er
        | Except.ok rest => Except.ok (e :: rest)

/-- The `ReadIter` struct plus the two things its `reflect.Value`s reach: the
remaining row source and the live target record (one `FieldVal` per declared
field, written in place by `Get`). -/
structure ReadIter where
  reader : List ReadResult
  headers : List String
  error : Option GoError
  line : Nat
  column : Nat
  plan : List PlanEntry
  record : List FieldVal

/-- Lines 80–158 of the source: `NewReadIter`.  Any header-read error
(including `io.EOF`) aborts; otherwise the plan is built field by field.
`Line` is 1 after construction, `Column` 0, `Error` nil. -/
def NewReadIter (rdr : List ReadResult) (decls : List FieldDecl) (record : List FieldVal) :
    Except GoError ReadIter :=
  match rdr with
  | [] => Except.error GoError.eofErr
  | ReadResult.fault e :: _ => Except.error e
  | ReadResult.row hs :: rest =>
    match buildPlan hs decls with
    | Except.error er => Except.error er
    | Except.ok plan =>
      Except.ok { reader := rest, headers := hs, error := none, line := 1,
                  column := 0, plan := plan, record := record }

/- ---------------- the row decoder ---------------- -/

/-- Lines 178–204 of the source: one iteration of the decode loop, for the
plan entry of field `fi`.  The row text at the entry's column is fetched
first (`vals := row[ci]`) — out of range is a Go panic, `none` here — and only
then does the `switch` on the kind run.  The result is the updated record and
the error the iteration leaves in `err` (checked right after each assignment
in the source, so modelling it per-iteration is equivalent). -/
def applyEntry (e : PlanEntry) (row : List String) (record : List FieldVal) (fi : Nat) :
    Option (List FieldVal × Option GoError) :=
  match row[e.tag]? with
  | none => none
  | some vals =>
    match e.kind with
    | Kind.none_k => some (record, none)
    | Kind.string_k => some (record.set fi (FieldVal.vstr vals), none)
    | Kind.int_k =>
      let vals := if vals = "" then "0" else vals
      let p := goParseInt vals
      some (record.set fi (FieldVal.vint p.1), p.2)
    | Kind.uint_k =>
      let p := goParseUint vals
      some (record.set fi (FieldVal.vuint p.1), p.2)
    | Kind.float_k =>
      let p := goParseFloat vals
      some (record.set fi (FieldVal.vfloat p.1), p.2)
    | Kind.value_k =>
      if e.impls then
        if e.setOk vals then some (record.set fi (FieldVal.vcustom vals), none)
        else some (record, none)
      else some (record, some GoError.notAValue)

/-- The whole `for fi, ci := range this.tags` loop: on the first non-nil
error it stops and reports the 1-based column `ci + 1`; a panic is `none`. -/
def runPlan : List PlanEntry → Nat → List String → List FieldVal →
    Option (List FieldVal × Option (Nat × GoError))
  | [], _, _, record => some (record, none)
  | e :: es, fi, row, record =>
    match applyEntry e row record fi with
    | none => none
    | some (record', some err) => some (record', some (e.tag + 1, err))
    | some (record', none) => runPlan es (fi + 1) row record'

/-- Lines 163–212 of the source: `Get`.  `Line` is incremented whatever the
read returns; `io.EOF` yields `false` without touching `Error`; any other
read error is recorded; otherwise the plan runs over the row.  An exhausted
source keeps answering `io.EOF`, as `csv.Reader` does. -/
def Get (s : ReadIter) : Option (Bool × ReadIter) :=
  match s.reader with
  | [] => some (false, { s with line := s.line + 1 })
  | ReadResult.fault e :: rest =>
    let s1 := { s with reader := rest, line := s.line + 1 }
    some (false, if e = GoError.eofErr then s1 else { s1 with error := some e })
  | ReadResult.row row :: rest =>
    let s1 := { s with reader := rest, line := s.line + 1 }
    match runPlan s.plan 0 row s.record with
    | none => none
    | some (record', none) => some (true, { s1 with record := record' })
    | some (record', some (col, err)) =>
      some (false, { s1 with record := record', column := col, error := some err })

/- convenient concrete Go types for the scenarios -/

def intType : GoType := ⟨GoKind.kInt, false, false, fun _ => false⟩
def uintType : GoType := ⟨GoKind.kUint, false, false, fun _ => false⟩
def floatType : GoType := ⟨GoKind.kFloat, false, false, fun _ => false⟩
def stringType : GoType := ⟨GoKind.kString, false, false, fun _ => false⟩

/- ---------------- definitions taken from the spec's words ---------------- -/

/-- From the spec's words, for comparison with the source's plan: "the plan
contains exactly the resolved fields, in declaration order" — each resolved
field is listed with its resolved column, unmatched fields are omitted. -/
def specResolvedPlan (headers : List String) (decls : List FieldDecl) : List (String × Nat) :=
  decls.filterMap (fun f => (lookupHeader headers (fieldKey f)).map (fun c => (f.name, c)))

/-- A syntactically valid base-10 signed integer: an optional sign followed
by at least one decimal digit — exactly the strings `strconv.ParseInt(s, 10, _)`
does not reject with a syntax error. -/
def validBase10SignedInt (s : String) : Bool :=
  let p := splitSign s.data
  !p.2.isEmpty && p.2.all Char.isDigit

end Csvdata

namespace Csvdata

/- ---------------- helper lemmas ---------------- -/

theorem getElem?_set_ne (l : List FieldVal) (fi i : Nat) (a : FieldVal) (h : fi ≠ i) :
    (l.set fi a)[i]? = l[i]? := by
  induction l generalizing fi i with
  | nil => simp
  | cons b bs ih =>
    cases fi with
    | zero =>
      cases i with
      | zero => exact absurd rfl h
      | succ j => simp [List.set]
    | succ fj =>
      cases i with
      | zero => simp [List.set]
      | succ j => simpa [List.set] using ih fj j (by omega)

theorem applyEntry_preserves (e : PlanEntry) (row : List String) (record r1 : List FieldVal)
    (fi i : Nat) (err : Option GoError)
    (h : applyEntry e row record fi = some (r1, err))
    (hne : fi ≠ i ∨ e.kind = Kind.none_k) :
    r1[i]? = record[i]? := by
  have hset : ∀ a : FieldVal, fi ≠ i → (record.set fi a)[i]? = record[i]? :=
    fun a hx => getElem?_set_ne record fi i a hx
  cases hrow : row[e.tag]? with
  | none =>
    simp only [applyEntry, hrow] at h
    exact Option.noConfusion h
  | some vals =>
    cases hk : e.kind with
    | none_k =>
      simp only [applyEntry, hrow, hk, Option.some.injEq, Prod.mk.injEq] at h
      rw [← h.1]
    | string_k =>
      have hfi : fi ≠ i := hne.resolve_right (by rw [hk]; intro hc; cases hc)
      simp only [applyEntry, hrow, hk, Option.some.injEq, Prod.mk.injEq] at h
      rw [← h.1]
      exact hset _ hfi
    | int_k =>
      have hfi : fi ≠ i := hne.resolve_right (by rw [hk]; intro hc; cases hc)
      simp only [applyEntry, hrow, hk, Option.some.injEq, Prod.mk.injEq] at h
      rw [← h.1]
      exact hset _ hfi
    | uint_k =>
      have hfi : fi ≠ i := hne.resolve_right (by rw [hk]; intro hc; cases hc)
      simp only [applyEntry, hrow, hk, Option.some.injEq, Prod.mk.injEq] at h
      rw [← h.1]
      exact hset _ hfi
    | float_k =>
      have hfi : fi ≠ i := hne.resolve_right (by rw [hk]; intro hc; cases hc)
      simp only [applyEntry, hrow, hk, Option.some.injEq, Prod.mk.injEq] at h
      rw [← h.1]
      exact hset _ hfi
    | value_k =>
      have hfi : fi ≠ i := hne.resolve_right (by rw [hk]; intro hc; cases hc)
      cases hi : e.impls with
      | false =>
        simp only [applyEntry, hrow, hk, hi, Bool.false_eq_true, if_false,
          Option.some.injEq, Prod.mk.injEq] at h
        rw [← h.1]
      | true =>
        cases hs : e.setOk vals with
        | false =>
          simp only [applyEntry, hrow, hk, hi, hs, if_true, Bool.false_eq_true, if_false,
            Option.some.injEq, Prod.mk.injEq] at h
          rw [← h.1]
        | true =>
          simp only [applyEntry, hrow, hk, hi, hs, if_true,
            Option.some.injEq, Prod.mk.injEq] at h
          rw [← h.1]
          exact hset _ hfi

theorem runPlan_append (pre rest : List PlanEntry) (fi : Nat) (row : List String)
    (record record1 : List FieldVal)
    (h : runPlan pre fi row record = some (record1, none)) :
    runPlan (pre ++ rest) fi row record = runPlan rest (fi + pre.length) row record1 := by
  induction pre generalizing fi record with
  | nil =>
    simp only [runPlan, Option.some.injEq, Prod.mk.injEq] at h
    rw [List.nil_append, h.1]
    simp
  | cons e pre ih =>
    cases hap : applyEntry e row record fi with
    | none =>
      simp only [runPlan, hap] at h
      exact Option.noConfusion h
    | some pr =>
      obtain ⟨record2, err⟩ := pr
      cases err with
      | some er =>
        simp only [runPlan, hap, Option.some.injEq, Prod.mk.injEq] at h
        exact Option.noConfusion h.2
      | none =>
        simp only [runPlan, hap] at h
        simp only [List.cons_append, runPlan, hap, List.append_eq]
        rw [ih (fi + 1) record2 h]
        have harith : fi + 1 + pre.length = fi + (pre.length + 1) := by omega
        simp only [List.length_cons, harith]

theorem runPlan_preserves (plan : List PlanEntry) (fi : Nat) (row : List String)
    (record record1 : List FieldVal) (res : Option (Nat × GoError)) (i : Nat)
    (h : runPlan plan fi row record = some (record1, res))
    (hn : ∀ j e, plan[j]? = some e → fi + j = i → e.kind = Kind.none_k) :
    record1[i]? = record[i]? := by
  induction plan generalizing fi record with
  | nil =>
    simp only [runPlan, Option.some.injEq, Prod.mk.injEq] at h
    rw [h.1]
  | cons e es ih =>
    have hne : fi ≠ i ∨ e.kind = Kind.none_k := by
      by_cases hfi : fi = i
      · exact Or.inr (hn 0 e (by simp) (by omega))
      · exact Or.inl hfi
    cases hap : applyEntry e row record fi with
    | none =>
      simp only [runPlan, hap] at h
      exact Option.noConfusion h
    | some pr =>
      obtain ⟨record2, err⟩ := pr
      have hstep := applyEntry_preserves e row record record2 fi i err hap hne
      cases err with
      | some er =>
        simp only [runPlan, hap, Option.some.injEq, Prod.mk.injEq] at h
        rw [← h.1]
        exact hstep
      | none =>
        simp only [runPlan, hap] at h
        have hrec := ih (fi + 1) record2 h (fun j e' hj hij =>
          hn (j + 1) e' (by simpa using hj) (by omega))
        rw [hrec, hstep]

theorem buildPlan_length (headers : List String) (decls : List FieldDecl)
    (plan : List PlanEntry) (h : buildPlan headers decls = Except.ok plan) :
    plan.length = decls.length := by
  induction decls generalizing plan with
  | nil =>
    simp only [buildPlan, Except.ok.injEq] at h
    rw [← h]
    rfl
  | cons f fs ih =>
    cases hlk : lookupHeader headers (fieldKey f) with
    | none =>
      cases hb : buildPlan headers fs with
      | error er =>
        simp only [buildPlan, hlk, hb] at h
        exact Except.noConfusion h
      | ok rest =>
        simp only [buildPlan, hlk, hb, Except.ok.injEq] at h
        rw [← h]
        simp [ih rest hb]
    | some itag =>
      cases hc : classifyField f.typ itag with
      | error er =>
        simp only [buildPlan, hlk, hc] at h
        exact Except.noConfusion h
      | ok e =>
        cases hb : buildPlan headers fs with
        | error er =>
          simp only [buildPlan, hlk, hc, hb] at h
          exact Except.noConfusion h
        | ok rest =>
          simp only [buildPlan, hlk, hc, hb, Except.ok.injEq] at h
          rw [← h]
          simp [ih rest hb]

theorem buildPlan_entry_none (headers : List String) (decls : List FieldDecl)
    (plan : List PlanEntry) (i : Nat) (f : FieldDecl)
    (hb : buildPlan headers decls = Except.ok plan) (hf : decls[i]? = some f)
    (hlk : lookupHeader headers (fieldKey f) = none) :
    plan[i]? = some defaultEntry := by
  induction decls generalizing plan i with
  | nil => simp at hf
  | cons g gs ih =>
    cases hlk2 : lookupHeader headers (fieldKey g) with
    | none =>
      cases hbs : buildPlan headers gs with
      | error er =>
        simp only [buildPlan, hlk2, hbs] at hb
        exact Except.noConfusion hb
      | ok rest =>
        simp only [buildPlan, hlk2, hbs, Except.ok.injEq] at hb
        cases i with
        | zero => rw [← hb]; simp
        | succ j =>
          rw [← hb]
          simpa using ih rest j hbs (by simpa using hf)
    | some itag =>
      cases hc : classifyField g.typ itag with
      | error er =>
        simp only [buildPlan, hlk2, hc] at hb
        exact Except.noConfusion hb
      | ok e =>
        cases hbs : buildPlan headers gs with
        | error er =>
          simp only [buildPlan, hlk2, hc, hbs] at hb
          exact Except.noConfusion hb
        | ok rest =>
          simp only [buildPlan, hlk2, hc, hbs, Except.ok.injEq] at hb
          cases i with
          | zero =>
            have hgf : g = f := by simpa using hf
            rw [hgf, hlk] at hlk2
            exact absurd hlk2 (by simp)
          | succ j =>
            rw [← hb]
            simpa using ih rest j hbs (by simpa using hf)

theorem buildPlan_entry_some (headers : List String) (decls : List FieldDecl)
    (plan : List PlanEntry) (i : Nat) (f : FieldDecl) (itag : Nat)
    (hb : buildPlan headers decls = Except.ok plan) (hf : decls[i]? = some f)
    (hlk : lookupHeader headers (fieldKey f) = some itag) :
    ∃ e, classifyField f.typ itag = Except.ok e ∧ plan[i]? = some e := by
  induction decls generalizing plan i with
  | nil => simp at hf
  | cons g gs ih =>
    cases hlk2 : lookupHeader headers (fieldKey g) with
    | none =>
      cases hbs : buildPlan headers gs with
      | error er =>
        simp only [buildPlan, hlk2, hbs] at hb
        exact Except.noConfusion hb
      | ok rest =>
        simp only [buildPlan, hlk2, hbs, Except.ok.injEq] at hb
        cases i with
        | zero =>
          have hgf : g = f := by simpa using hf
          rw [hgf, hlk] at hlk2
          exact absurd hlk2 (by simp)
        | succ j =>
          obtain ⟨e, he, hpe⟩ := ih rest j hbs (by simpa using hf)
          exact ⟨e, he, by rw [← hb]; simpa using hpe⟩
    | some itag2 =>
      cases hc : classifyField g.typ itag2 with
      | error er =>
        simp only [buildPlan, hlk2, hc] at hb
        exact Except.noConfusion hb
      | ok e0 =>
        cases hbs : buildPlan headers gs with
        | error er =>
          simp only [buildPlan, hlk2, hc, hbs] at hb
          exact Except.noConfusion hb
        | ok rest =>
          simp only [buildPlan, hlk2, hc, hbs, Except.ok.injEq] at hb
          cases i with
          | zero =>
            have hgf : g = f := by simpa using hf
            rw [hgf, hlk] at hlk2
            have hit : itag2 = itag := by
              have := hlk2
              simpa using this.symm
            refine ⟨e0, ?_, by rw [← hb]; simp⟩
            rw [← hgf, ← hit]
            exact hc
          | succ j =>
            obtain ⟨e, he, hpe⟩ := ih rest j hbs (by simpa using hf)
            exact ⟨e, he, by rw [← hb]; simpa using hpe⟩

theorem classifyField_error_eq (t : GoType) (itag : Nat) (er : GoError)
    (h : classifyField t itag = Except.error er) : er = GoError.cannotConvert := by
  cases hp : t.ptrImplsValue with
  | true =>
    simp only [classifyField, hp, if_true] at h
    exact Except.noConfusion h
  | false =>
    cases hk : t.kind with
    | kInt =>
      simp only [classifyField, hp, hk, Bool.false_eq_true, if_false] at h
      exact Except.noConfusion h
    | kUint =>
      simp only [classifyField, hp, hk, Bool.false_eq_true, if_false] at h
      exact Except.noConfusion h
    | kFloat =>
      simp only [classifyField, hp, hk, Bool.false_eq_true, if_false] at h
      exact Except.noConfusion h
    | kString =>
      simp only [classifyField, hp, hk, Bool.false_eq_true, if_false] at h
      exact Except.noConfusion h
    | kOther =>
      cases hv : t.valImplsValue with
      | true =>
        simp only [classifyField, hp, hk, hv, Bool.false_eq_true, if_false, if_true] at h
        exact Except.noConfusion h
      | false =>
        simp only [classifyField, hp, hk, hv, Bool.false_eq_true, if_false,
          Except.error.injEq] at h
        exact h.symm

theorem buildPlan_error_eq (headers : List String) (decls : List FieldDecl) (er : GoError)
    (h : buildPlan headers decls = Except.error er) : er = GoError.cannotConvert := by
  induction decls generalizing er with
  | nil => simp [buildPlan] at h
  | cons f fs ih =>
    cases hlk : lookupHeader headers (fieldKey f) with
    | none =>
      cases hbs : buildPlan headers fs with
      | error er2 =>
        simp only [buildPlan, hlk, hbs, Except.error.injEq] at h
        rw [← h]
        exact ih er2 hbs
      | ok rest =>
        simp only [buildPlan, hlk, hbs] at h
        exact Except.noConfusion h
    | some itag =>
      cases hc : classifyField f.typ itag with
      | error er2 =>
        simp only [buildPlan, hlk, hc, Except.error.injEq] at h
        rw [← h]
        exact classifyField_error_eq f.typ itag er2 hc
      | ok e =>
        cases hbs : buildPlan headers fs with
        | error er2 =>
          simp only [buildPlan, hlk, hc, hbs, Except.error.injEq] at h
          rw [← h]
          exact ih er2 hbs
        | ok rest =>
          simp only [buildPlan, hlk, hc, hbs] at h
          exact Except.noConfusion h

theorem Get_nil (s : ReadIter) (h : s.reader = []) :
    Get s = some (false, { s with line := s.line + 1 }) := by
  simp only [Get, h]

theorem Get_fault_eof (s : ReadIter) (rest : List ReadResult)
    (h : s.reader = ReadResult.fault GoError.eofErr :: rest) :
    Get s = some (false, { s with reader := rest, line := s.line + 1 }) := by
  simp only [Get, h, if_pos]

theorem Get_fault (s : ReadIter) (e : GoError) (rest : List ReadResult)
    (h : s.reader = ReadResult.fault e :: rest) (hne : e ≠ GoError.eofErr) :
    Get s = some (false, { s with reader := rest, line := s.line + 1, error := some e }) := by
  simp only [Get, h]
  rw [if_neg hne]

theorem Get_row_panic (s : ReadIter) (row0 : List String) (rest : List ReadResult)
    (h : s.reader = ReadResult.row row0 :: rest)
    (hr : runPlan s.plan 0 row0 s.record = none) : Get s = none := by
  simp only [Get, h, hr]

theorem Get_row_ok (s : ReadIter) (row0 : List String) (rest : List ReadResult)
    (record1 : List FieldVal) (h : s.reader = ReadResult.row row0 :: rest)
    (hr : runPlan s.plan 0 row0 s.record = some (record1, none)) :
    Get s = some (true, { s with reader := rest, line := s.line + 1, record := record1 }) := by
  simp only [Get, h, hr]

theorem Get_row_err (s : ReadIter) (row0 : List String) (rest : List ReadResult)
    (record1 : List FieldVal) (col : Nat) (err : GoError)
    (h : s.reader = ReadResult.row row0 :: rest)
    (hr : runPlan s.plan 0 row0 s.record = some (record1, some (col, err))) :
    Get s
      = some (false,
          { s with reader := rest, line := s.line + 1, record := record1, column := col,
                   error := some err }) := by
  simp only [Get, h, hr]

theorem parseDecAux_none (cs : List Char) (acc : Nat) (h : cs.all Char.isDigit = false) :
    parseDecAux cs acc = none := by
  induction cs generalizing acc with
  | nil => simp at h
  | cons c cs ih =>
    cases hc : c.isDigit with
    | false => simp only [parseDecAux, hc, Bool.false_eq_true, if_false]
    | true =>
      simp only [List.all_cons, hc, Bool.true_and] at h
      simp only [parseDecAux, hc, if_true]
      exact ih _ h

theorem underscoreToSpace_eq_self (s : String) (h : containsUnderscore s = false) :
    underscoreToSpace s = s := by
  cases s with
  | mk cs =>
    simp only [containsUnderscore] at h
    simp only [underscoreToSpace]
    congr 1
    induction cs with
    | nil => rfl
    | cons c cs ih =>
      simp only [List.contains_cons, Bool.or_eq_false_iff] at h
      have hc : ¬ (c = '_') := by
        intro he
        rw [he] at h
        simp at h
      simp only [List.map_cons, if_neg hc]
      rw [ih h.2]

theorem lookupHeader_some_spec (headers : List String) (key : String) (i : Nat)
    (h : lookupHeader headers key = some i) :
    ∃ hd, headers[i]? = some hd ∧ eqFold hd key = true
      ∧ ∀ (j : Nat) (hj : String), j < i → headers[j]? = some hj → eqFold hj key = false := by
  induction headers generalizing i with
  | nil => simp [lookupHeader] at h
  | cons hd0 hs ih =>
    cases he : eqFold hd0 key with
    | true =>
      simp only [lookupHeader, he, if_true, Option.some.injEq] at h
      refine ⟨hd0, ?_, he, ?_⟩
      · rw [← h]
        simp
      · intro j hj hji
        omega
    | false =>
      simp only [lookupHeader, he, Bool.false_eq_true, if_false] at h
      cases hrec : lookupHeader hs key with
      | none => rw [hrec] at h; exact Option.noConfusion h
      | some i0 =>
        rw [hrec] at h
        simp at h
        obtain ⟨hd, h1, h2, h3⟩ := ih i0 hrec
        refine ⟨hd, ?_, h2, ?_⟩
        · rw [← h]
          simp only [List.getElem?_cons_succ]
          exact h1
        · intro j hj hji hjq
          cases j with
          | zero =>
            have : hd0 = hj := by simpa using hjq
            rw [← this]
            exact he
          | succ j2 =>
            have hlt : j2 < i0 := by omega
            exact h3 j2 hj hlt (by simpa using hjq)

theorem lookupHeader_none_spec (headers : List String) (key : String)
    (h : lookupHeader headers key = none) :
    ∀ (j : Nat) (hj : String), headers[j]? = some hj → eqFold hj key = false := by
  induction headers with
  | nil => intro j hj hjq; simp at hjq
  | cons hd0 hs ih =>
    intro j hj hjq
    cases he : eqFold hd0 key with
    | true =>
      simp only [lookupHeader, he, if_true] at h
      exact Option.noConfusion h
    | false =>
      simp only [lookupHeader, he, Bool.false_eq_true, if_false] at h
      cases hrec : lookupHeader hs key with
      | some i0 => rw [hrec] at h; simp at h
      | none =>
        cases j with
        | zero =>
          have : hd0 = hj := by simpa using hjq
          rw [← this]
          exact he
        | succ j2 => exact ih hrec j2 hj (by simpa using hjq)

theorem classifyField_tag (t : GoType) (itag : Nat) (e : PlanEntry)
    (h : classifyField t itag = Except.ok e) : e.tag = itag := by
  cases hp : t.ptrImplsValue with
  | true =>
    simp only [classifyField, hp, if_true, Except.ok.injEq] at h
    rw [← h]
  | false =>
    cases hk : t.kind with
    | kInt =>
      simp only [classifyField, hp, hk, Bool.false_eq_true, if_false, Except.ok.injEq] at h
      rw [← h]
    | kUint =>
      simp only [classifyField, hp, hk, Bool.false_eq_true, if_false, Except.ok.injEq] at h
      rw [← h]
    | kFloat =>
      simp only [classifyField, hp, hk, Bool.false_eq_true, if_false, Except.ok.injEq] at h
      rw [← h]
    | kString =>
      simp only [classifyField, hp, hk, Bool.false_eq_true, if_false, Except.ok.injEq] at h
      rw [← h]
    | kOther =>
      cases hv : t.valImplsValue with
      | true =>
        simp only [classifyField, hp, hk, hv, Bool.false_eq_true, if_false, if_true,
          Except.ok.injEq] at h
        rw [← h]
      | false =>
        simp only [classifyField, hp, hk, hv, Bool.false_eq_true, if_false] at h
        exact Except.noConfusion h

/- ---------------- the claims ---------------- -/

/-- C5: when `Read` yields the distinguished end-of-input signal (`io.EOF`,
or an exhausted source), `Get` returns `false` and the session's error stays
absent; when it yields any other fault, `Get` returns `false` and records
that fault as the session error — so error-absent after the final `false`
holds exactly for end-of-input termination. -/
theorem c5_eof_vs_fault (s : ReadIter) (h : s.error = none) :
    ((s.reader = [] ∨ (∃ rest, s.reader = ReadResult.fault GoError.eofErr :: rest)) →
       ∃ s1, Get s = some (false, s1) ∧ s1.error = none)
    ∧ (∀ (e : GoError) (rest : List ReadResult), e ≠ GoError.eofErr →
         s.reader = ReadResult.fault e :: rest →
           ∃ s1, Get s = some (false, s1) ∧ s1.error = some e) := by
  constructor
  · rintro (hr | ⟨rest, hr⟩)
    · exact ⟨_, Get_nil s hr, h⟩
    · exact ⟨_, Get_fault_eof s rest hr, h⟩
  · intro e rest hne hr
    exact ⟨_, Get_fault s e rest hr hne, rfl⟩

/-- C5 witness: a concrete session whose read yields a non-EOF fault. -/
theorem c5_eof_vs_fault_witness :
    ∃ s1, Get ⟨[ReadResult.fault (GoError.readFault "boom")], ["A"], none, 1, 0, [], []⟩
        = some (false, s1)
      ∧ s1.error = some (GoError.readFault "boom") :=
  (c5_eof_vs_fault ⟨[ReadResult.fault (GoError.readFault "boom")], ["A"], none, 1, 0, [], []⟩
      rfl).2 (GoError.readFault "boom") [] (by decide) rfl

/-- C6: the lookup key is the `field` tag verbatim when present, otherwise
the declared name with underscores replaced by spaces; resolution picks the
first case-insensitive header match; an explicit tag takes precedence (the
declared name is never consulted); and the plan entry of a resolved field
carries exactly the resolved column index. -/
theorem c6_name_resolution :
    (∀ f : FieldDecl, f.tag ≠ "" → fieldKey f = f.tag)
    ∧ (∀ f : FieldDecl, f.tag = "" → fieldKey f = underscoreToSpace f.name)
    ∧ (∀ (n1 n2 tg : String) (t1 t2 : GoType), tg ≠ "" →
        fieldKey ⟨n1, tg, t1⟩ = fieldKey ⟨n2, tg, t2⟩)
    ∧ (∀ (headers : List String) (key : String) (i : Nat),
        lookupHeader headers key = some i →
          ∃ hd, headers[i]? = some hd ∧ eqFold hd key = true
            ∧ ∀ (j : Nat) (hj : String), j < i → headers[j]? = some hj →
                eqFold hj key = false)
    ∧ (∀ (headers : List String) (decls : List FieldDecl) (plan : List PlanEntry)
        (i : Nat) (f : FieldDecl) (itag : Nat),
        buildPlan headers decls = Except.ok plan → decls[i]? = some f →
        lookupHeader headers (fieldKey f) = some itag →
          ∃ e, plan[i]? = some e ∧ e.tag = itag) := by
  refine ⟨?_, ?_, ?_, ?_, ?_⟩
  · intro f h
    simp only [fieldKey, if_neg h]
  · intro f h
    simp only [fieldKey, if_pos h]
    cases hcu : containsUnderscore f.name with
    | true => simp only [if_true]
    | false =>
      simp only [Bool.false_eq_true, if_false]
      exact (underscoreToSpace_eq_self f.name hcu).symm
  · intro n1 n2 tg t1 t2 h
    simp only [fieldKey, if_neg h]
  · intro headers key i h
    exact lookupHeader_some_spec headers key i h
  · intro headers decls plan i f itag hb hf hlk
    obtain ⟨e, he, hpe⟩ := buildPlan_entry_some headers decls plan i f itag hb hf hlk
    exact ⟨e, hpe, classifyField_tag f.typ itag e he⟩

/-- C6 witness: a tag "A" on a field declared "B" resolves by the tag. -/
theorem c6_name_resolution_witness :
    fieldKey ⟨"B", "A", stringType⟩ = "A" :=
  c6_name_resolution.1 ⟨"B", "A", stringType⟩ (by decide)

/-- C10: `StrToInt64` silently discards the parse error — every string that
is not a syntactically valid base-10 signed integer yields 0, the same value
as a successful parse of "0", and no failure is reported to the caller. -/
theorem c10_strToInt64_swallows_errors :
    (∀ s : String, validBase10SignedInt s = false → StrToInt64 s = 0)
    ∧ StrToInt64 "0" = 0 := by
  refine ⟨?_, rfl⟩
  intro s h
  cases hsp : splitSign s.data with
  | mk neg ds =>
    have h2 : (!ds.isEmpty && ds.all Char.isDigit) = false := by
      simpa [validBase10SignedInt, hsp] using h
    cases ds with
    | nil => simp [StrToInt64, goParseInt, hsp]
    | cons c cs =>
      have hall : (c :: cs).all Char.isDigit = false := by
        cases hx : (c :: cs).all Char.isDigit with
        | false => rfl
        | true => rw [hx] at h2; simp at h2
      have hp := parseDecAux_none (c :: cs) 0 hall
      simp [StrToInt64, goParseInt, hsp, hp]

/-- C10 witness: "12a" is not a valid base-10 signed integer and maps to 0. -/
theorem c10_strToInt64_swallows_errors_witness :
    validBase10SignedInt "12a" = false ∧ StrToInt64 "12a" = 0 :=
  ⟨by decide, c10_strToInt64_swallows_errors.1 "12a" (by decide)⟩

/-- C1 counterexample: header `["A","B"]`, two signed-integer fields bound to
columns 1 and 2, short row `["1"]`: `Get` does not record any fault — it
produces no result at all (the Go code hits an index-out-of-range panic at
`row[ci]`), refuting "the fault is recorded at column 2". -/
theorem c1_short_row_counterexample :
    ∃ s, NewReadIter [ReadResult.row ["A", "B"], ReadResult.row ["1"]]
        [⟨"A", "", intType⟩, ⟨"B", "", intType⟩] [FieldVal.vint 0, FieldVal.vint 0]
        = Except.ok s
      ∧ Get s = none := ⟨_, rfl, rfl⟩

/-- C1 (amended): a data row shorter than some resolved column index makes
`Get` abort with an uncaught index-out-of-range fault (modelled as `none`,
no result) as soon as the loop reaches that entry, recording nothing on the
session — not a session-recorded out-of-range fault at that column. -/
theorem c1_amended_short_row_panics (s : ReadIter) (row0 : List String)
    (rest : List ReadResult) (pre post : List PlanEntry) (e : PlanEntry)
    (record1 : List FieldVal)
    (hrow : s.reader = ReadResult.row row0 :: rest)
    (hplan : s.plan = pre ++ e :: post)
    (hoob : row0.length ≤ e.tag)
    (hpre : runPlan pre 0 row0 s.record = some (record1, none)) :
    Get s = none := by
  have hnone : row0[e.tag]? = none := List.getElem?_eq_none hoob
  apply Get_row_panic s row0 rest hrow
  rw [hplan, runPlan_append pre _ 0 row0 s.record record1 hpre]
  have happ : applyEntry e row0 record1 (0 + pre.length) = none := by
    simp only [applyEntry, hnone]
  simp only [runPlan, happ]

/-- C1 witness for the amended claim, at the scenario's session state. -/
theorem c1_amended_short_row_panics_witness :
    Get ⟨[ReadResult.row ["1"]], ["A", "B"], none, 1, 0,
         [⟨Kind.int_k, 0, false, fun _ => false⟩, ⟨Kind.int_k, 1, false, fun _ => false⟩],
         [FieldVal.vint 0, FieldVal.vint 0]⟩ = none :=
  c1_amended_short_row_panics _ ["1"] [] [⟨Kind.int_k, 0, false, fun _ => false⟩] []
    ⟨Kind.int_k, 1, false, fun _ => false⟩ [FieldVal.vint 1, FieldVal.vint 0]
    rfl rfl (by decide) rfl

/-- C3 counterexample: after a conversion fault on row `["x"]` (error set on
the session), the next `Get` call reads row `["2"]`, decodes it and returns
`true` — the session is not terminal. -/
theorem c3_fault_not_terminal_counterexample :
    ∃ s s1 s2, NewReadIter [ReadResult.row ["A"], ReadResult.row ["x"], ReadResult.row ["2"]]
        [⟨"A", "", intType⟩] [FieldVal.vint 0] = Except.ok s
      ∧ Get s = some (false, s1) ∧ s1.error = some (GoError.numErr NumErr.badSyn)
      ∧ Get s1 = some (true, s2) ∧ s2.record = [FieldVal.vint 2] :=
  ⟨_, _, _, rfl, rfl, rfl, rfl, rfl⟩

/-- C3 (amended): a recorded fault is not terminal — `Get` never consults the
session's error state, so a later call proceeds on the remaining rows exactly
as it would with no fault recorded, and may report success. -/
theorem c3_amended_error_not_consulted (s : ReadIter) (e : Option GoError) :
    (Get { s with error := e }).map Prod.fst = (Get s).map Prod.fst := by
  cases hr : s.reader with
  | nil => simp [Get, hr]
  | cons r rest =>
    cases r with
    | fault er => simp [Get, hr]
    | row row0 =>
      simp only [Get, hr]
      cases hp : runPlan s.plan 0 row0 s.record with
      | none => simp
      | some pr =>
        obtain ⟨rec1, res⟩ := pr
        cases res with
        | none => simp
        | some ce => obtain ⟨col, err⟩ := ce; simp

/-- C4 counterexample: a custom-settable field whose `Set` rejects the text
"bad": `Get` returns `true`, records no error and no column, and leaves the
field untouched — the rejection is silently discarded, refuting "records a
conversion fault and returns false". -/
theorem c4_set_rejection_counterexample :
    ∃ s s1, NewReadIter [ReadResult.row ["A"], ReadResult.row ["bad"]]
        [⟨"A", "", ⟨GoKind.kOther, true, false, fun _ => false⟩⟩] [FieldVal.vcustom "old"]
        = Except.ok s
      ∧ Get s = some (true, s1) ∧ s1.error = none ∧ s1.column = 0
      ∧ s1.record = [FieldVal.vcustom "old"] :=
  ⟨_, _, rfl, rfl, rfl, rfl, rfl⟩

/-- C4 (amended): when a custom-settable field's set-from-text reports
failure, the decode loop ignores the report entirely: the entry contributes
no error, leaves the record unchanged, and the loop continues with the
remaining entries as if the set had succeeded. -/
theorem c4_amended_set_rejection_ignored (pre post : List PlanEntry) (ci : Nat)
    (so : String → Bool) (row0 : List String) (t : String)
    (record record1 : List FieldVal)
    (hci : row0[ci]? = some t) (hrej : so t = false)
    (hpre : runPlan pre 0 row0 record = some (record1, none)) :
    runPlan (pre ++ ⟨Kind.value_k, ci, true, so⟩ :: post) 0 row0 record
      = runPlan post (pre.length + 1) row0 record1 := by
  rw [runPlan_append pre _ 0 row0 record record1 hpre]
  have happ : applyEntry ⟨Kind.value_k, ci, true, so⟩ row0 record1 pre.length
      = some (record1, none) := by
    simp only [applyEntry, hci, hrej]
    simp
  simp only [runPlan, Nat.zero_add, happ]

/-- C4 witness for the amended claim: a one-entry plan whose `Set` rejects. -/
theorem c4_amended_set_rejection_ignored_witness :
    runPlan [⟨Kind.value_k, 0, true, fun _ => false⟩] 0 ["bad"] [FieldVal.vcustom "old"]
      = some ([FieldVal.vcustom "old"], none) := by
  have h := c4_amended_set_rejection_ignored [] [] 0 (fun _ => false) ["bad"] "bad"
    [FieldVal.vcustom "old"] [FieldVal.vcustom "old"] rfl rfl rfl
  simpa [runPlan] using h

/-- C2: when the text at a bound column is empty, a signed-integer entry sets
the field to zero and contributes no error (the loop continues); an
unsigned-integer or floating-point entry makes `Get` return `false` with the
conversion fault and the 1-based column recorded on the session. -/
theorem c2_empty_text (s : ReadIter) (row0 : List String) (rest : List ReadResult)
    (pre post : List PlanEntry) (ci : Nat) (b : Bool) (so : String → Bool)
    (record1 : List FieldVal)
    (hrow : s.reader = ReadResult.row row0 :: rest)
    (hempty : row0[ci]? = some "")
    (hpre : runPlan pre 0 row0 s.record = some (record1, none)) :
    (s.plan = pre ++ ⟨Kind.int_k, ci, b, so⟩ :: post →
      runPlan s.plan 0 row0 s.record
        = runPlan post (pre.length + 1) row0 (record1.set pre.length (FieldVal.vint 0)))
    ∧ (s.plan = pre ++ ⟨Kind.uint_k, ci, b, so⟩ :: post →
      ∃ s1, Get s = some (false, s1)
        ∧ s1.error = some (GoError.numErr NumErr.badSyn) ∧ s1.column = ci + 1
        ∧ s1.record = record1.set pre.length (FieldVal.vuint 0))
    ∧ (s.plan = pre ++ ⟨Kind.float_k, ci, b, so⟩ :: post →
      ∃ s1, Get s = some (false, s1)
        ∧ s1.error = some (GoError.numErr NumErr.badSyn) ∧ s1.column = ci + 1
        ∧ s1.record = record1.set pre.length (FieldVal.vfloat 0)) := by
  refine ⟨?_, ?_, ?_⟩
  · intro hplan
    rw [hplan, runPlan_append pre _ 0 row0 s.record record1 hpre]
    have h0 : goParseInt "0" = (0, none) := rfl
    have happ : applyEntry ⟨Kind.int_k, ci, b, so⟩ row0 record1 pre.length
        = some (record1.set pre.length (FieldVal.vint 0), none) := by
      simp only [applyEntry, hempty]
      simp [h0]
    simp only [runPlan, Nat.zero_add, happ]
  · intro hplan
    have hu : goParseUint "" = (0, some (GoError.numErr NumErr.badSyn)) := rfl
    have happ : applyEntry ⟨Kind.uint_k, ci, b, so⟩ row0 record1 pre.length
        = some (record1.set pre.length (FieldVal.vuint 0),
            some (GoError.numErr NumErr.badSyn)) := by
      simp only [applyEntry, hempty, hu]
    have hrun : runPlan s.plan 0 row0 s.record
        = some (record1.set pre.length (FieldVal.vuint 0),
            some (ci + 1, GoError.numErr NumErr.badSyn)) := by
      rw [hplan, runPlan_append pre _ 0 row0 s.record record1 hpre]
      simp only [runPlan, Nat.zero_add, happ]
    exact ⟨_, Get_row_err s row0 rest _ _ _ hrow hrun, rfl, rfl, rfl⟩
  · intro hplan
    have hf : goParseFloat "" = (0, some (GoError.numErr NumErr.badSyn)) := rfl
    have happ : applyEntry ⟨Kind.float_k, ci, b, so⟩ row0 record1 pre.length
        = some (record1.set pre.length (FieldVal.vfloat 0),
            some (GoError.numErr NumErr.badSyn)) := by
      simp only [applyEntry, hempty, hf]
    have hrun : runPlan s.plan 0 row0 s.record
        = some (record1.set pre.length (FieldVal.vfloat 0),
            some (ci + 1, GoError.numErr NumErr.badSyn)) := by
      rw [hplan, runPlan_append pre _ 0 row0 s.record record1 hpre]
      simp only [runPlan, Nat.zero_add, happ]
    exact ⟨_, Get_row_err s row0 rest _ _ _ hrow hrun, rfl, rfl, rfl⟩

/-- C2 witness: one unsigned field bound to column 1, row `[""]`. -/
theorem c2_empty_text_witness :
    ∃ s1, Get ⟨[ReadResult.row [""]], ["A"], none, 1, 0,
        [⟨Kind.uint_k, 0, false, fun _ => false⟩], [FieldVal.vuint 5]⟩ = some (false, s1)
      ∧ s1.error = some (GoError.numErr NumErr.badSyn) ∧ s1.column = 0 + 1
      ∧ s1.record = ([FieldVal.vuint 5] : List FieldVal).set 0 (FieldVal.vuint 0) :=
  (c2_empty_text
      ⟨[ReadResult.row [""]], ["A"], none, 1, 0,
        [⟨Kind.uint_k, 0, false, fun _ => false⟩], [FieldVal.vuint 5]⟩
      [""] [] [] [] 0 false (fun _ => false) [FieldVal.vuint 5]
      rfl rfl rfl).2.1 rfl

/-- C7 counterexample: header `["X"]`, one declared field "Z" that matches no
column — construction succeeds, but the plan is not "exactly the resolved
fields": it keeps one entry while the spec-described plan is empty. -/
theorem c7_unmatched_field_counterexample :
    ∃ s, NewReadIter [ReadResult.row ["X"]] [⟨"Z", "", stringType⟩] [FieldVal.vstr "keep"]
        = Except.ok s
      ∧ s.plan.length = 1
      ∧ (specResolvedPlan ["X"] [⟨"Z", "", stringType⟩]).length = 0 :=
  ⟨_, rfl, rfl, rfl⟩

/-- C7 (amended): an unmatched field produces no construction error, but it
is not omitted from the plan: the plan keeps one entry per declared field,
the unmatched field's entry being the `make`-zero placeholder (kind none,
column 0); the row decoder never modifies an unmatched field's value. -/
theorem c7_amended_unmatched_placeholder (headers : List String) (decls : List FieldDecl)
    (plan : List PlanEntry) (hb : buildPlan headers decls = Except.ok plan) :
    plan.length = decls.length
    ∧ (∀ (i : Nat) (f : FieldDecl), decls[i]? = some f →
        lookupHeader headers (fieldKey f) = none →
        plan[i]? = some defaultEntry)
    ∧ (∀ (s : ReadIter) (b : Bool) (s1 : ReadIter) (i : Nat) (f : FieldDecl),
        s.plan = plan → decls[i]? = some f →
        lookupHeader headers (fieldKey f) = none →
        Get s = some (b, s1) → s1.record[i]? = s.record[i]?) := by
  refine ⟨buildPlan_length headers decls plan hb, ?_, ?_⟩
  · intro i f hf hlk
    exact buildPlan_entry_none headers decls plan i f hb hf hlk
  · intro s b s1 i f hsp hf hlk hget
    have hni : ∀ (j : Nat) (e : PlanEntry), s.plan[j]? = some e → 0 + j = i →
        e.kind = Kind.none_k := by
      intro j e hj hij
      have hji : j = i := by omega
      subst hji
      rw [hsp] at hj
      have hdef := buildPlan_entry_none headers decls plan j f hb hf hlk
      rw [hdef] at hj
      have he : defaultEntry = e := by simpa using hj
      rw [← he]
      rfl
    cases hr : s.reader with
    | nil =>
      rw [Get_nil s hr] at hget
      simp only [Option.some.injEq, Prod.mk.injEq] at hget
      rw [← hget.2]
    | cons r rest =>
      cases r with
      | fault er =>
        by_cases he : er = GoError.eofErr
        · rw [he] at hr
          rw [Get_fault_eof s rest hr] at hget
          simp only [Option.some.injEq, Prod.mk.injEq] at hget
          rw [← hget.2]
        · rw [Get_fault s er rest hr he] at hget
          simp only [Option.some.injEq, Prod.mk.injEq] at hget
          rw [← hget.2]
      | row row0 =>
        cases hrp : runPlan s.plan 0 row0 s.record with
        | none =>
          rw [Get_row_panic s row0 rest hr hrp] at hget
          exact Option.noConfusion hget
        | some pr =>
          obtain ⟨rec1, res⟩ := pr
          have hpres := runPlan_preserves s.plan 0 row0 s.record rec1 res i hrp hni
          cases res with
          | none =>
            rw [Get_row_ok s row0 rest rec1 hr hrp] at hget
            simp only [Option.some.injEq, Prod.mk.injEq] at hget
            rw [← hget.2]
            exact hpres
          | some ce =>
            obtain ⟨col, err⟩ := ce
            rw [Get_row_err s row0 rest rec1 col err hr hrp] at hget
            simp only [Option.some.injEq, Prod.mk.injEq] at hget
            rw [← hget.2]
            exact hpres

/-- C7 witness for the amended claim: the unmatched field keeps the
placeholder entry. -/
theorem c7_amended_unmatched_placeholder_witness :
    ([defaultEntry] : List PlanEntry)[0]? = some defaultEntry :=
  (c7_amended_unmatched_placeholder ["X"] [⟨"Z", "", stringType⟩] [defaultEntry] rfl).2.1 0
    ⟨"Z", "", stringType⟩ rfl rfl

/-- C8: a field that matched a column but has neither a recognized primitive
kind nor the custom-settable capability on its addressable or non-addressable
form makes the whole construction fail with the type error — no session is
produced. -/
theorem c8_unclassifiable_fails_construction (headers : List String) (decls : List FieldDecl)
    (rest : List ReadResult) (record : List FieldVal) (i : Nat) (f : FieldDecl) (itag : Nat)
    (hf : decls[i]? = some f)
    (hres : lookupHeader headers (fieldKey f) = some itag)
    (hptr : f.typ.ptrImplsValue = false)
    (hkind : f.typ.kind = GoKind.kOther)
    (hval : f.typ.valImplsValue = false) :
    NewReadIter (ReadResult.row headers :: rest) decls record
      = Except.error GoError.cannotConvert := by
  have hcl : classifyField f.typ itag = Except.error GoError.cannotConvert := by
    simp only [classifyField, hptr, hkind, hval, Bool.false_eq_true, if_false]
  cases hb : buildPlan headers decls with
  | ok plan =>
    obtain ⟨e, he, _⟩ := buildPlan_entry_some headers decls plan i f itag hb hf hres
    rw [hcl] at he
    exact absurd he (by simp)
  | error er =>
    have her := buildPlan_error_eq headers decls er hb
    simp only [NewReadIter, hb, her]

/-- C8 witness: a matched field of an unclassifiable type. -/
theorem c8_unclassifiable_fails_construction_witness :
    NewReadIter [ReadResult.row ["A"]]
        [⟨"A", "", ⟨GoKind.kOther, false, false, fun _ => false⟩⟩] []
      = Except.error GoError.cannotConvert :=
  c8_unclassifiable_fails_construction ["A"]
    [⟨"A", "", ⟨GoKind.kOther, false, false, fun _ => false⟩⟩] [] [] 0
    ⟨"A", "", ⟨GoKind.kOther, false, false, fun _ => false⟩⟩ 0 rfl rfl rfl rfl rfl

/-- C9: an unmatched field keeps a placeholder plan entry with column index 0
and the none kind; the decode loop fetches `row[0]` for that entry before
dispatching on the kind (out of range on an empty row, a no-op otherwise); so
`Get` on an empty row with an unmatched field in the declared type indexes
out of bounds — it yields no result instead of returning. -/
theorem c9_placeholder_not_total (headers : List String) (decls : List FieldDecl)
    (plan : List PlanEntry) (hb : buildPlan headers decls = Except.ok plan) :
    (∀ (i : Nat) (f : FieldDecl), decls[i]? = some f →
        lookupHeader headers (fieldKey f) = none →
        plan[i]? = some ⟨Kind.none_k, 0, false, fun _ => false⟩)
    ∧ (∀ (b : Bool) (so : String → Bool) (record : List FieldVal) (fi : Nat),
        applyEntry ⟨Kind.none_k, 0, b, so⟩ [] record fi = none)
    ∧ (∀ (b : Bool) (so : String → Bool) (record : List FieldVal) (fi : Nat) (t : String)
        (row0 : List String), row0[0]? = some t →
        applyEntry ⟨Kind.none_k, 0, b, so⟩ row0 record fi = some (record, none))
    ∧ (∀ (s : ReadIter) (rest : List ReadResult) (i : Nat) (f : FieldDecl),
        s.plan = plan → decls[i]? = some f →
        lookupHeader headers (fieldKey f) = none →
        s.reader = ReadResult.row [] :: rest →
        Get s = none) := by
  refine ⟨?_, ?_, ?_, ?_⟩
  · intro i f hf hlk
    exact buildPlan_entry_none headers decls plan i f hb hf hlk
  · intro b so record fi
    rfl
  · intro b so record fi t row0 h
    simp only [applyEntry, h]
  · intro s rest i f hsp hf hlk hreader
    have hlen := buildPlan_length headers decls plan hb
    have hi : i < decls.length := by
      by_contra hilen
      rw [List.getElem?_eq_none (by omega)] at hf
      exact Option.noConfusion hf
    apply Get_row_panic s [] rest hreader
    cases hplan2 : plan with
    | nil =>
      rw [hplan2] at hlen
      simp at hlen
      omega
    | cons p0 prest =>
      rw [hsp, hplan2]
      have happ : applyEntry p0 [] s.record 0 = none := by
        simp [applyEntry]
      simp only [runPlan, happ]

/-- C9 witness: a session whose single declared field is unmatched, on an
empty row. -/
theorem c9_placeholder_not_total_witness :
    Get ⟨[ReadResult.row []], ["X"], none, 1, 0, [defaultEntry], [FieldVal.vstr "keep"]⟩
      = none :=
  (c9_placeholder_not_total ["X"] [⟨"Z", "", stringType⟩] [defaultEntry] rfl).2.2.2
    ⟨[ReadResult.row []], ["X"], none, 1, 0, [defaultEntry], [FieldVal.vstr "keep"]⟩
    [] 0 ⟨"Z", "", stringType⟩ rfl rfl rfl rfl

end Csvdata

